import Mathlib

/-!
Verification of the helm-walk YAML flattener (`src/main.go`).

The tree model and the two core algorithms — `findNodeByPath` (path
resolver) and `walk` (tree flattener) — are shallow embeddings of the
Go source.  Go strings are modelled as Lean `String`s; the handful of
Go standard-library string operations the source uses
(`strings.Split`, `strings.Index`, `strings.Contains`,
`strings.Join`, `strings.TrimSpace`, `strings.ContainsAny`,
`strings.HasPrefix/HasSuffix`, `strings.ReplaceAll`, `strconv.Atoi`)
are given explicit executable definitions over `List Char` so that the
kernel can evaluate them.  Go run-time panics (out-of-range slice or
index expressions) are modelled explicitly: the resolver returns a
dedicated `panic` result and the flattener returns a `Bool` flag
recording that the walk aborted mid-traversal.
-/

namespace HelmWalk

/-- Scalar style tag of a YAML node, projected to the cases the source
distinguishes (`yaml.LiteralStyle`, `yaml.FoldedStyle`, anything else). -/
inductive Style where
  | plain
  | quoted
  | literal
  | folded
deriving DecidableEq, Repr

/-- The parsed YAML tree (`yaml.Node`): a mapping is its ordered key/value
pairs (the Go `Content` slice holds them flattened, key then value), a
sequence is its ordered children, a scalar is its string `Value` plus style. -/
inductive Node where
  | mapping (pairs : List (String × Node))
  | sequence (items : List Node)
  | scalar (value : String) (style : Style)

instance : Inhabited Node := ⟨Node.scalar "" Style.plain⟩

/-- `strings.Split` for a single-character separator, over chars. -/
def splitCh (sepc : Char) : List Char → List (List Char)
  | [] => [[]]
  | c :: rest =>
    let r := splitCh sepc rest
    if c = sepc then [] :: r else (c :: r.headD []) :: r.tail

/-- `strings.Split(s, ".")`, producing the dot-separated parts. -/
def splitDots (s : String) : List String :=
  (splitCh '.' s.toList).map (fun cs => ⟨cs⟩)

/-- `strings.Join(path, ".")`. -/
def joinDot : List String → String
  | [] => ""
  | [p] => p
  | p :: rest => p ++ "." ++ joinDot rest

/-- Digit-string value, used by the `strconv.Atoi` model. -/
def digitsVal (ds : List Char) : Nat :=
  ds.foldl (fun acc c => acc * 10 + (c.toNat - 48)) 0

/-- Whether a char list is a nonempty run of decimal digits. -/
def allDigits (ds : List Char) : Bool :=
  decide (ds ≠ []) && ds.all (fun c => c.isDigit)

/-- Whether `strconv.Atoi` succeeds on `s`: an optionally signed nonempty
run of decimal digits (the 64-bit range error is not modelled). -/
def atoiOk (s : String) : Bool :=
  match s.toList with
  | '-' :: rest => allDigits rest
  | '+' :: rest => allDigits rest
  | l => allDigits l

/-- `strconv.Atoi` with its error ignored, as the source does
(`index, _ := strconv.Atoi(indexString)`): a well-formed optionally
signed decimal numeral parses to its value, anything else yields `0`. -/
def goAtoi (s : String) : Int :=
  if atoiOk s then
    match s.toList with
    | '-' :: rest => -(digitsVal rest : Int)
    | '+' :: rest => (digitsVal rest : Int)
    | l => (digitsVal l : Int)
  else 0

/-- `strings.Index(part, "]")` as the Go `int`: byte index of the first
`]`, or `-1` when absent (single ASCII char, so char position = byte index). -/
def rbIndex (part : String) : Int :=
  match part.toList.findIdx? (· = ']') with
  | some i => (i : Int)
  | none => -1

/-- Position of the first `[` in a segment (meaningful when one exists);
`strings.Index(part, "[")`. -/
def lbIndex (part : String) : Nat :=
  part.toList.findIdx (· = '[')

/-- `part[:strings.Index(part, "[")]` — the key name before the bracket. -/
def segName (part : String) : String :=
  ⟨part.toList.takeWhile (· ≠ '[')⟩

/-- `part[strings.Index(part, "[")+1 : strings.Index(part, "]")]`.
A Go slice expression `s[a:b]` panics when `b < a` (in particular when
`]` is absent, so `b = -1`, or when `]` precedes `[`); `none` models
that panic. -/
def segIndexStr (part : String) : Option String :=
  let cs := part.toList
  let lb := lbIndex part
  let rb := rbIndex part
  if rb < (lb : Int) + 1 then none
  else some ⟨(cs.take rb.toNat).drop (lb + 1)⟩

/-- The three distinct error values `findNodeByPath` builds with
`fmt.Errorf`: `"key %s not found"`, `"index [%d] out of range for %s"`,
and `"invalid format: %s"` (the last carries the whole entrypoint). -/
inductive FErr where
  | keyNotFound (name : String)
  | indexOutOfRange (index : Int) (name : String)
  | invalidFormat (entrypoint : String)
deriving DecidableEq, Repr

/-- Result of path resolution: the node, an error, or a run-time panic. -/
inductive FRes where
  | ok (n : Node)
  | err (e : FErr)
  | panic

/-- Outcome of processing one path segment against the current node. -/
inductive StepRes where
  | next (n : Node)
  | fail (e : FErr)
  | panicked

/-- `getMapValue` (lines 68–84): on a mapping, the value of the first
pair whose key equals `key`; `nil` (here `none`) otherwise, including
on every non-mapping node. -/
def getMapValue : Node → String → Option Node
  | Node.mapping pairs, key => lookupFirst pairs key
  | _, _ => none
where
  /-- First-match association lookup over the mapping's pairs. -/
  lookupFirst : List (String × Node) → String → Option Node
  | [], _ => none
  | (k, v) :: rest, key => if k = key then some v else lookupFirst rest key

/-- The indexed-descent checks of `findNodeByPath` (lines 46–51): a
non-sequence child or an index `≥ len` is the out-of-range error; the
unchecked negative index then panics at `child.Content[index]`. -/
def indexedDescend (name : String) (index : Int) (child : Node) : StepRes :=
  match child with
  | Node.sequence items =>
    if index ≥ (items.length : Int) then StepRes.fail (FErr.indexOutOfRange index name)
    else if index < 0 then StepRes.panicked
    else StepRes.next (items.getD index.toNat default)
  | _ => StepRes.fail (FErr.indexOutOfRange index name)

/-- One iteration of the segment loop of `findNodeByPath` (lines 30–62):
bracketed segments parse a name and an index and descend through a
sequence; plain segments are a mapping lookup whose failure carries the
whole entrypoint string. -/
def stepPart (ep : String) (current : Node) (part : String) : StepRes :=
  if part.toList.contains '[' then
    match segIndexStr part with
    | none => StepRes.panicked
    | some istr =>
      let name := segName part
      let index := goAtoi istr
      match getMapValue current name with
      | none => StepRes.fail (FErr.keyNotFound name)
      | some child => indexedDescend name index child
  else
    match getMapValue current part with
    | none => StepRes.fail (FErr.invalidFormat ep)
    | some next => StepRes.next next

/-- The segment loop of `findNodeByPath`: process parts in order,
stopping at the first error or panic. -/
def findLoop (ep : String) : List String → Node → FRes
  | [], current => FRes.ok current
  | part :: rest, current =>
    match stepPart ep current part with
    | StepRes.next n => findLoop ep rest n
    | StepRes.fail e => FRes.err e
    | StepRes.panicked => FRes.panic

/-- `findNodeByPath` (lines 25–65): split the entrypoint on `.` and
walk the segments down from the root. -/
def findNodeByPath (root : Node) (entrypoint : String) : FRes :=
  findLoop entrypoint (splitDots entrypoint) root

/-- The characters `strings.TrimSpace` strips (`unicode.IsSpace`). -/
def goIsSpace (c : Char) : Bool :=
  c ∈ [' ', '\t', '\n', '\r', Char.ofNat 11, Char.ofNat 12, Char.ofNat 133, Char.ofNat 160]

/-- `strings.TrimSpace(v) == ""`: every character is whitespace. -/
def trimmedEmpty (v : String) : Bool := v.toList.all goIsSpace

/-- `isEmptyNode` (lines 97–106): a scalar is empty iff its trimmed value
is empty, a mapping or sequence iff it has no content. -/
def isEmptyNode : Node → Bool
  | Node.scalar v _ => trimmedEmpty v
  | Node.mapping pairs => pairs.isEmpty
  | Node.sequence items => items.isEmpty

/-- The budget decrement of `walk` (lines 123–126 and 140–143): positive
budgets lose one unit per descent, the negative unlimited sentinel and
zero are passed through unchanged. -/
def nextRem (remain : Int) : Int := if remain > 0 then remain - 1 else remain

/-- The sequence-branch path copy of `walk` (lines 146–148): suffix `[i]`
onto the last segment of a copy of `path`; `p[len(p)-1]` panics (`none`)
when the path is empty. -/
def suffixLast : List String → Nat → Option (List String)
  | [], _ => none
  | [p], i => some [p ++ "[" ++ toString i ++ "]"]
  | p :: q :: rest, i => (suffixLast (q :: rest) i).map (fun ps => p :: ps)

/-- `strings.ContainsAny(val, ":[]\x7b\x7d,")`. -/
def hasSpecial (v : String) : Bool :=
  v.toList.any (fun c => c ∈ [':', '[', ']', Char.ofNat 123, Char.ofNat 125, ','])

/-- `strings.HasPrefix(val, " ")`. -/
def startsSpace (v : String) : Bool :=
  match v.toList with
  | [] => false
  | c :: _ => c = ' '

/-- `strings.HasSuffix(val, " ")`. -/
def endsSpace (v : String) : Bool :=
  match v.toList.getLast? with
  | none => false
  | some c => c = ' '

/-- `strings.ReplaceAll(val, "\"", "\\\"")`. -/
def escapeQuotes (v : String) : String :=
  ⟨v.toList.foldr (fun c acc => if c = '"' then '\\' :: '"' :: acc else c :: acc) []⟩

/-- `strings.Split(val, "\n")`. -/
def splitLines (val : String) : List String :=
  (splitCh '\n' val.toList).map (fun cs => ⟨cs⟩)

/-- The block-scalar emission loop of `walk` (lines 160–167): each line
two-space indented on its own output line, skipping only a final empty
line (the artifact of a terminating newline). -/
def emitBlockLines : List String → List String
  | [] => []
  | [line] => if line = "" then [] else ["  " ++ line]
  | line :: next :: rest => ("  " ++ line) :: emitBlockLines (next :: rest)

/-- Scalar formatting, the `default` branch of `walk` (lines 152–179):
block style for embedded newlines or block-styled scalars, quoting with
`\"`-escaping for YAML-sensitive or space-fringed values, else verbatim. -/
def renderScalar (sep : String) (path : List String) (val : String) (style : Style) : List String :=
  if val.toList.contains '\n' ∨ style = Style.literal ∨ style = Style.folded then
    (joinDot path ++ sep ++ "|-") :: emitBlockLines (splitLines val)
  else if hasSpecial val ∨ startsSpace val ∨ endsSpace val then
    [joinDot path ++ sep ++ "\"" ++ escapeQuotes val ++ "\""]
  else
    [joinDot path ++ sep ++ val]

mutual

/-- `walk` (lines 108–180): flatten `node` under the accumulated `path`
with `remain` depth budget, producing the emitted lines in order plus a
flag recording whether the walk aborted in a run-time panic. -/
def walk (ie : Bool) (sep : String) (node : Node) (path : List String) (remain : Int) : List String × Bool :=
  if ie = false ∧ isEmptyNode node then ([], false)
  else
    match node with
    | Node.mapping pairs =>
      if remain = 0 then ([joinDot path ++ sep ++ "<object>"], false)
      else walkPairs ie sep pairs path (nextRem remain)
    | Node.sequence items =>
      if remain = 0 then ([joinDot path ++ sep ++ "<array>"], false)
      else walkItems ie sep items path 0 (nextRem remain)
    | Node.scalar val style => (renderScalar sep path val style, false)

/-- The mapping loop of `walk` (lines 128–132): recurse on each value
with its key appended to the path, aborting at the first panic. -/
def walkPairs (ie : Bool) (sep : String) (pairs : List (String × Node)) (path : List String) (remain : Int) : List String × Bool :=
  match pairs with
  | [] => ([], false)
  | (k, v) :: rest =>
    let r := walk ie sep v (path ++ [k]) remain
    if r.2 then r
    else
      let r2 := walkPairs ie sep rest path remain
      (r.1 ++ r2.1, r2.2)

/-- The sequence loop of `walk` (lines 145–150): recurse on each element
with `[i]` suffixed onto the last path segment, aborting at the first
panic (in particular immediately when the path is empty). -/
def walkItems (ie : Bool) (sep : String) (items : List Node) (path : List String) (i : Nat) (remain : Int) : List String × Bool :=
  match items with
  | [] => ([], false)
  | item :: rest =>
    match suffixLast path i with
    | none => ([], true)
    | some p =>
      let r := walk ie sep item p remain
      if r.2 then r
      else
        let r2 := walkItems ie sep rest path (i + 1) remain
        (r.1 ++ r2.1, r2.2)

end

/-- Outcome of one run of `main`'s core flow (lines 188–244), for the
case where a parsed tree is available. -/
inductive RunRes where
  | usage
  | resolveError (e : FErr)
  | resolvePanic
  | lines (out : List String) (panicked : Bool)

/-- `main`'s core flow (lines 188–244) after YAML parsing: reject a bad
separator, split the entry into the starting path prefix, resolve the
entry path when one is given, then walk from the resulting node. -/
def program (root : Node) (entry : String) (depth : Int) (ie : Bool) (sep : String) : RunRes :=
  if sep ≠ ": " ∧ sep ≠ "=" then RunRes.usage
  else
    let entryPath := if entry = "" then [] else splitDots entry
    if entry = "" then
      let r := walk ie sep root entryPath depth
      RunRes.lines r.1 r.2
    else
      match findNodeByPath root entry with
      | FRes.err e => RunRes.resolveError e
      | FRes.panic => RunRes.resolvePanic
      | FRes.ok n =>
        let r := walk ie sep n entryPath depth
        RunRes.lines r.1 r.2

mutual

/-- Instrumented variant of `walk` for stating the depth contract: each
emitted line is paired with the number of descents (one per `.key` or
`[i]` step) performed since the start of the walk, i.e. the number of
additional path segments beyond the starting prefix.  The recursion,
guards and emitted text mirror `walk` exactly. -/
def walkC (ie : Bool) (sep : String) (node : Node) (path : List String) (remain : Int) (k : Nat) : List (Nat × String) × Bool :=
  if ie = false ∧ isEmptyNode node then ([], false)
  else
    match node with
    | Node.mapping pairs =>
      if remain = 0 then ([(k, joinDot path ++ sep ++ "<object>")], false)
      else walkCPairs ie sep pairs path (nextRem remain) (k + 1)
    | Node.sequence items =>
      if remain = 0 then ([(k, joinDot path ++ sep ++ "<array>")], false)
      else walkCItems ie sep items path 0 (nextRem remain) (k + 1)
    | Node.scalar val style => ((renderScalar sep path val style).map (fun l => (k, l)), false)

/-- Mapping loop of `walkC`, mirroring `walkPairs`. -/
def walkCPairs (ie : Bool) (sep : String) (pairs : List (String × Node)) (path : List String) (remain : Int) (k : Nat) : List (Nat × String) × Bool :=
  match pairs with
  | [] => ([], false)
  | (kk, v) :: rest =>
    let r := walkC ie sep v (path ++ [kk]) remain k
    if r.2 then r
    else
      let r2 := walkCPairs ie sep rest path remain k
      (r.1 ++ r2.1, r2.2)

/-- Sequence loop of `walkC`, mirroring `walkItems`. -/
def walkCItems (ie : Bool) (sep : String) (items : List Node) (path : List String) (i : Nat) (remain : Int) (k : Nat) : List (Nat × String) × Bool :=
  match items with
  | [] => ([], false)
  | item :: rest =>
    match suffixLast path i with
    | none => ([], true)
    | some p =>
      let r := walkC ie sep item p remain k
      if r.2 then r
      else
        let r2 := walkCItems ie sep rest path (i + 1) remain k
        (r.1 ++ r2.1, r2.2)

end

/-- Whether `pre` is an initial run of `l` (character-wise). -/
def leadsWith : List Char → List Char → Bool
  | [], _ => true
  | _ :: _, [] => false
  | a :: as, b :: bs => a = b && leadsWith as bs

/-- Whether `sep` occurs as a contiguous run somewhere in `l`. -/
def occursIn (sep : List Char) : List Char → Bool
  | [] => leadsWith sep []
  | c :: rest => leadsWith sep (c :: rest) || occursIn sep rest

/-- Split `l` at the first occurrence of `sep`: the part before and the
part after, or `none` when `sep` does not occur.  This is the
"re-split the emitted line on the configured separator" reading of the
round-trip property. -/
def firstSplit (sep : List Char) : List Char → Option (List Char × List Char)
  | [] => if leadsWith sep [] then some ([], []) else none
  | c :: rest =>
    if leadsWith sep (c :: rest) then some ([], (c :: rest).drop sep.length)
    else (firstSplit sep rest).map (fun pr => (c :: pr.1, pr.2))

/-- The spec's description of block-scalar bodies: the value's lines with
a trailing empty line (from a terminating newline) dropped.  Stated from
the spec's words, to be compared with the loop the code runs. -/
def stripTrailingEmpty (lines : List String) : List String :=
  if lines.getLast? = some "" then lines.dropLast else lines

/-- `goAtoi` returns `0` whenever the numeral is not well formed. -/
theorem goAtoi_of_bad (s : String) (h : atoiOk s = false) : goAtoi s = 0 := by
  simp [goAtoi, h]

/-- C1 counterexample: the claim promises a hard `IndexOutOfRange` error
and "never a crash" for every out-of-range index, but a negative index
passes the only range check the code performs (`index >= len`) and the
subsequent element access `child.Content[index]` panics. -/
theorem c1_negative_index_crashes :
    findNodeByPath
      (Node.mapping [("containers", Node.sequence
        [Node.scalar "a" Style.plain, Node.scalar "b" Style.plain, Node.scalar "c" Style.plain])])
      "containers[-1]" = FRes.panic
    ∧ FRes.panic ≠ FRes.err (FErr.indexOutOfRange (-1) "containers") :=
  ⟨rfl, fun h => nomatch h⟩

/-- C1 (amended): for an indexed segment parsing as `name[N]` where `name`
resolves to a sequence of `L` elements, resolution descends into element
`N` exactly when `0 ≤ N < L`; when `N ≥ L` it fails with the
`IndexOutOfRange` error carrying `name` and `N` (so `containers[5]`
against a 3-element sequence fails with `IndexOutOfRange("containers", 5)`);
a negative `N`, however, panics instead of erroring. -/
theorem c1_indexed_segment_range (ep : String) (c : Node) (part istr name : String)
    (N : Int) (items : List Node)
    (hb : part.toList.contains '[' = true)
    (hs : segIndexStr part = some istr)
    (hn : segName part = name)
    (hi : goAtoi istr = N)
    (hm : getMapValue c name = some (Node.sequence items)) :
    (0 ≤ N → N < items.length → stepPart ep c part = StepRes.next (items.getD N.toNat default))
    ∧ ((items.length : Int) ≤ N → stepPart ep c part = StepRes.fail (FErr.indexOutOfRange N name))
    ∧ (N < 0 → stepPart ep c part = StepRes.panicked) := by
  subst hn hi
  simp only [stepPart, hb, hs, if_true, hm]
  refine ⟨fun h0 h1 => ?_, fun h2 => ?_, fun h3 => ?_⟩ <;> simp only [indexedDescend]
  · rw [if_neg (by omega), if_neg (by omega)]
  · rw [if_pos (by omega)]
  · rw [if_neg (by omega), if_pos h3]

/-- Witness for C1: `containers[5]` against the 3-element sequence. -/
theorem c1_indexed_segment_range_witness :
    stepPart "containers[5]"
      (Node.mapping [("containers", Node.sequence
        [Node.scalar "a" Style.plain, Node.scalar "b" Style.plain, Node.scalar "c" Style.plain])])
      "containers[5]"
      = StepRes.fail (FErr.indexOutOfRange 5 "containers") :=
  (c1_indexed_segment_range "containers[5]"
      (Node.mapping [("containers", Node.sequence
        [Node.scalar "a" Style.plain, Node.scalar "b" Style.plain, Node.scalar "c" Style.plain])])
      "containers[5]" "5" "containers" 5
      [Node.scalar "a" Style.plain, Node.scalar "b" Style.plain, Node.scalar "c" Style.plain]
      rfl rfl rfl rfl rfl).2.1 (by decide)

/-- C2 counterexample: with `includeEmpty=false` a childless mapping is
skipped by the emptiness test before the budget-0 branch can run, so no
`<object>` line is emitted — the claim's "regardless of the mapping's
contents, for every includeEmpty setting" fails. -/
theorem c2_empty_mapping_skipped :
    walk false ": " (Node.mapping []) ["p"] 0 = ([], false)
    ∧ ([] : List String) ≠ ["p: <object>"] :=
  ⟨rfl, fun h => nomatch h⟩

/-- C2 (amended): flattening a mapping with depth budget 0 emits exactly
the one line `<joined prefix><separator><object>` and stops, for every
prefix and separator, provided the node is not suppressed by the
emptiness policy (the mapping is non-empty or includeEmpty is true). -/
theorem c2_budget_zero_mapping (pairs : List (String × Node)) (path : List String)
    (sep : String) (ie : Bool) (h : ie = true ∨ pairs ≠ []) :
    walk ie sep (Node.mapping pairs) path 0 =
      ([joinDot path ++ sep ++ "<object>"], false) := by
  have hg : ¬(ie = false ∧ isEmptyNode (Node.mapping pairs) = true) := by
    rcases h with h | h
    · simp [h]
    · rcases pairs with _ | ⟨a, l⟩
      · exact absurd rfl h
      · simp [isEmptyNode]
  rw [walk, if_neg hg]
  rw [if_pos rfl]

/-- Witness for C2: a one-pair mapping at budget 0 under prefix `p`. -/
theorem c2_budget_zero_mapping_witness :
    walk false ": " (Node.mapping [("a", Node.scalar "x" Style.plain)]) ["p"] 0 =
      (["p: <object>"], false) :=
  c2_budget_zero_mapping [("a", Node.scalar "x" Style.plain)] ["p"] ": " false
    (Or.inr (fun h => nomatch h))

/-- C3 counterexample: a segment whose `[` has no matching `]` is not
tolerated: the Go slice expression `part[i+1:-1]` panics, so `name[`
resolves to a crash while `name[0]` — the behaviour the claim says the
malformed segment is treated as — succeeds. -/
theorem c3_unmatched_bracket_crashes :
    findNodeByPath (Node.mapping [("name", Node.sequence [Node.scalar "a" Style.plain])])
      "name[" = FRes.panic
    ∧ findNodeByPath (Node.mapping [("name", Node.sequence [Node.scalar "a" Style.plain])])
      "name[0]" = FRes.ok (Node.scalar "a" Style.plain)
    ∧ FRes.panic ≠ FRes.ok (Node.scalar "a" Style.plain) :=
  ⟨rfl, rfl, fun h => nomatch h⟩

/-- C3 (amended): when the bracketed index substring can be extracted
(there is a `]` at or after the `[`) but is not a well-formed integer,
the index defaults to `0` and the segment resolves exactly as `name[0]`;
when the `]` is missing or precedes the `[`, the slice expression
panics instead of being tolerated. -/
theorem c3_malformed_index_defaults_zero (ep : String) (c : Node) (part istr : String)
    (hb : part.toList.contains '[' = true) :
    (segIndexStr part = some istr → atoiOk istr = false →
      stepPart ep c part =
        (match getMapValue c (segName part) with
         | none => StepRes.fail (FErr.keyNotFound (segName part))
         | some child => indexedDescend (segName part) 0 child))
    ∧ (segIndexStr part = none → stepPart ep c part = StepRes.panicked) := by
  constructor
  · intro hs hbad
    simp only [stepPart, hb, hs, if_true, goAtoi_of_bad istr hbad]
  · intro hs
    simp only [stepPart, hb, hs, if_true]

/-- Witness for C3: `name[x]` descends into element 0 of the sequence. -/
theorem c3_malformed_index_defaults_zero_witness :
    stepPart "name[x]"
      (Node.mapping [("name", Node.sequence [Node.scalar "a" Style.plain, Node.scalar "b" Style.plain])])
      "name[x]" = StepRes.next (Node.scalar "a" Style.plain) :=
  (c3_malformed_index_defaults_zero "name[x]"
      (Node.mapping [("name", Node.sequence [Node.scalar "a" Style.plain, Node.scalar "b" Style.plain])])
      "name[x]" "x" rfl).1 rfl rfl

/-- C4 counterexample: an empty root sequence with `includeEmpty=true` is
not skipped by the emptiness test (the test is bypassed entirely), yet
the element loop runs zero iterations, so the walk neither panics nor
emits lines — the claim predicted a panic for every non-skipped case. -/
theorem c4_empty_sequence_no_panic :
    program (Node.sequence []) "" (-1) true ": " = RunRes.lines [] false
    ∧ RunRes.lines ([] : List String) false ≠ RunRes.lines [] true :=
  ⟨rfl, by simp⟩

/-- C4 (amended): flattening a document whose root is a non-empty
sequence with no entry path (empty prefix) and a non-zero depth budget
panics at the `p[len(p)-1]` access on the first element, before any
line is emitted, for either includeEmpty setting and both separators. -/
theorem c4_root_sequence_empty_prefix_panics (items : List Node) (d : Int) (ie : Bool)
    (sep : String) (hsep : sep = ": " ∨ sep = "=") (hne : items ≠ []) (hd : d ≠ 0) :
    program (Node.sequence items) "" d ie sep = RunRes.lines [] true := by
  have hv : ¬(sep ≠ ": " ∧ sep ≠ "=") := by
    rcases hsep with h | h <;> simp [h]
  have hw : walk ie sep (Node.sequence items) [] d = ([], true) := by
    have hg : ¬(ie = false ∧ isEmptyNode (Node.sequence items) = true) := by
      rcases items with _ | ⟨a, l⟩
      · exact absurd rfl hne
      · simp [isEmptyNode]
    rw [walk, if_neg hg, if_neg hd]
    rcases items with _ | ⟨a, l⟩
    · exact absurd rfl hne
    · rw [walkItems]
      simp [suffixLast]
  unfold program
  rw [if_neg hv, if_pos rfl]
  simp [hw]

/-- Witness for C4: a one-element root sequence at unlimited depth. -/
theorem c4_root_sequence_empty_prefix_panics_witness :
    program (Node.sequence [Node.scalar "x" Style.plain]) "" (-1) true ": " =
      RunRes.lines [] true :=
  c4_root_sequence_empty_prefix_panics [Node.scalar "x" Style.plain] (-1) true ": "
    (Or.inl rfl) (fun h => nomatch h) (by decide)

/-- C5 counterexample: a plain segment miss (`b` absent under `a`) fails
with the invalid-format error carrying the whole entrypoint `a.b`, a
third error kind distinct from the `KeyNotFound("b")` the claim
promises (the key-naming error exists only for indexed segments). -/
theorem c5_plain_miss_not_key_error :
    findNodeByPath (Node.mapping [("a", Node.mapping [])]) "a.b" =
      FRes.err (FErr.invalidFormat "a.b")
    ∧ FErr.invalidFormat "a.b" ≠ FErr.keyNotFound "b" :=
  ⟨rfl, by decide⟩

/-- C5 (amended): lookup on a non-mapping yields not-found; a plain
segment that does not resolve fails terminally with the invalid-format
error carrying the whole path expression (not a `KeyNotFound` naming the
missing key — that kind is reserved for the `name` of an indexed
segment); and a resolution error aborts the program before any walk, so
no output lines are produced. -/
theorem c5_plain_segment_failure (ep part : String) (c : Node) (rest : List String)
    (root : Node) (entry : String) (d : Int) (ie : Bool) (sep : String) (e : FErr) :
    ((∀ pairs, c ≠ Node.mapping pairs) → getMapValue c part = none)
    ∧ (part.toList.contains '[' = false → getMapValue c part = none →
        findLoop ep (part :: rest) c = FRes.err (FErr.invalidFormat ep))
    ∧ ((sep = ": " ∨ sep = "=") → entry ≠ "" → findNodeByPath root entry = FRes.err e →
        program root entry d ie sep = RunRes.resolveError e) := by
  refine ⟨?_, ?_, ?_⟩
  · intro hnm
    cases c with
    | mapping pairs => exact absurd rfl (hnm pairs)
    | sequence items => rfl
    | scalar v st => rfl
  · intro hb hm
    simp only [findLoop, stepPart, hb, hm, Bool.false_eq_true, if_false]
  · intro hsep hne hf
    have hv : ¬(sep ≠ ": " ∧ sep ≠ "=") := by
      rcases hsep with h | h <;> simp [h]
    unfold program
    rw [if_neg hv, if_neg hne, hf]

/-- Witness for C5: the program run on the `a.b` miss ends in the
invalid-format resolution error and produces no lines. -/
theorem c5_plain_segment_failure_witness :
    program (Node.mapping [("a", Node.mapping [])]) "a.b" (-1) false ": " =
      RunRes.resolveError (FErr.invalidFormat "a.b") :=
  (c5_plain_segment_failure "a.b" "b" (Node.mapping []) []
      (Node.mapping [("a", Node.mapping [])]) "a.b" (-1) false ": "
      (FErr.invalidFormat "a.b")).2.2 (Or.inl rfl) (fun h => nomatch h) rfl

/-- C6: the concrete alertmanager scenario: entry `alertmanager`,
unlimited depth, `includeEmpty=false`, separator `": "` produces exactly
the three lines in depth-first insertion order, with the
`namespaceOverride` line suppressed because its value is empty. -/
theorem c6_alertmanager_scenario :
    program
      (Node.mapping [("alertmanager", Node.mapping
        [("enabled", Node.scalar "false" Style.plain),
         ("namespaceOverride", Node.scalar "" Style.plain),
         ("annotations", Node.mapping [("snooze", Node.scalar "true" Style.plain)]),
         ("apiVersion", Node.scalar "v2" Style.plain)])])
      "alertmanager" (-1) false ": " =
      RunRes.lines
        ["alertmanager.enabled: false",
         "alertmanager.annotations.snooze: true",
         "alertmanager.apiVersion: v2"] false := rfl

/-- With `includeEmpty=false`, a node classified empty is skipped before
anything is emitted or descended into. -/
theorem walk_skips_empty (sep : String) (node : Node) (path : List String) (d : Int)
    (h : isEmptyNode node = true) : walk false sep node path d = ([], false) := by
  rw [walk.eq_def, if_pos ⟨rfl, h⟩]

/-- The mapping loop emits nothing when every child value is empty. -/
theorem walkPairs_all_empty (sep : String) (pairs : List (String × Node))
    (path : List String) (rem : Int)
    (h : ∀ p ∈ pairs, isEmptyNode p.2 = true) :
    walkPairs false sep pairs path rem = ([], false) := by
  induction pairs with
  | nil => rw [walkPairs]
  | cons a rest ih =>
    obtain ⟨k, v⟩ := a
    have h1 : walk false sep v (path ++ [k]) rem = ([], false) :=
      walk_skips_empty sep v (path ++ [k]) rem (h (k, v) (List.mem_cons_self _ _))
    have h2 := ih (fun p hp => h p (List.mem_cons_of_mem _ hp))
    simp [walkPairs, h1, h2]

/-- C7 counterexample: at depth budget 0, a mapping whose only descendant
is empty still emits the `<object>` placeholder line (the budget check
runs before its children are ever examined), so "zero output lines" for
an all-empty-descendants mapping fails at budget 0. -/
theorem c7_budget_zero_placeholder :
    walk false ": " (Node.mapping [("a", Node.scalar "" Style.plain)]) ["p"] 0 =
      (["p: <object>"], false)
    ∧ (["p: <object>"], false) ≠ (([] : List String), false) :=
  ⟨rfl, by simp⟩

/-- C7 (amended): with `includeEmpty=false` flattening skips exactly the
nodes classified empty (scalar: trimmed value empty; mapping/sequence:
no children), emitting nothing for them or anything beneath them; a
mapping whose every descendant is empty (equivalently: whose every
direct child value is empty, since empty nodes have no children)
produces zero output lines provided the depth budget is not exactly 0;
and with `includeEmpty=true` the emptiness test is bypassed entirely, so
even an all-whitespace scalar is rendered. -/
theorem c7_empty_skipping (sep : String) (node : Node) (path : List String) (d : Int)
    (pairs : List (String × Node)) (v : String) (st : Style) :
    (isEmptyNode node = true → walk false sep node path d = ([], false))
    ∧ ((∀ p ∈ pairs, isEmptyNode p.2 = true) → d ≠ 0 →
        walk false sep (Node.mapping pairs) path d = ([], false))
    ∧ walk true sep (Node.scalar v st) path d = (renderScalar sep path v st, false) := by
  refine ⟨fun h => walk_skips_empty sep node path d h, fun hall hd => ?_, ?_⟩
  · by_cases hp : pairs = []
    · exact walk_skips_empty sep _ path d (by simp [hp, isEmptyNode])
    · have hg : ¬(false = false ∧ isEmptyNode (Node.mapping pairs) = true) := by
        rcases pairs with _ | ⟨a, l⟩
        · exact absurd rfl hp
        · simp [isEmptyNode]
      rw [walk, if_neg hg, if_neg hd]
      exact walkPairs_all_empty sep pairs path (nextRem d) hall
  · rw [walk, if_neg (by simp)]

/-- Witness for C7: a mapping of an empty scalar and an empty mapping at
unlimited depth emits nothing. -/
theorem c7_empty_skipping_witness :
    walk false ": " (Node.mapping [("a", Node.scalar "" Style.plain), ("b", Node.mapping [])])
      ["p"] (-1) = ([], false) :=
  (c7_empty_skipping ": " (Node.mapping []) ["p"] (-1)
      [("a", Node.scalar "" Style.plain), ("b", Node.mapping [])] "" Style.plain).2.1
    (by decide) (by decide)

/-- A list is led by itself. -/
theorem leadsWith_append_self (s t : List Char) : leadsWith s (s ++ t) = true := by
  induction s with
  | nil => rfl
  | cons c cs ih => simp [leadsWith, ih]

/-- Whether `s` leads `t ++ w` only depends on `t` when `t` is at least
as long as `s`. -/
theorem leadsWith_append_of_le (s : List Char) :
    ∀ (t w : List Char), s.length ≤ t.length → leadsWith s (t ++ w) = leadsWith s t := by
  induction s with
  | nil => intro t w h; simp [leadsWith]
  | cons c cs ih =>
    intro t w h
    cases t with
    | nil => simp at h
    | cons b bs =>
      simp only [List.cons_append, leadsWith, List.append_eq]
      rw [ih bs w (by simpa using h)]

/-- An initial occurrence is an occurrence. -/
theorem occursIn_of_leadsWith (s l : List Char) (h : leadsWith s l = true) :
    occursIn s l = true := by
  cases l with
  | nil => simpa [occursIn] using h
  | cons c rest => simp [occursIn, h]

/-- Splitting `a ++ sep ++ v` at the first occurrence of `sep` recovers
`a` and `v`, provided no occurrence of `sep` starts inside the `a`
part (`occursIn sep (a ++ sep.dropLast) = false` rules out occurrences
within `a` and those spilling over the boundary). -/
theorem firstSplit_boundary (sep : List Char) (hne : sep ≠ []) :
    ∀ (a v : List Char), occursIn sep (a ++ sep.dropLast) = false →
      firstSplit sep (a ++ sep ++ v) = some (a, v) := by
  intro a
  induction a with
  | nil =>
    intro v _
    rcases sep with _ | ⟨s0, srest⟩
    · exact absurd rfl hne
    · simp only [List.nil_append, List.cons_append, firstSplit]
      rw [if_pos (by simpa using leadsWith_append_self (s0 :: srest) v)]
      simp [List.drop_left]
  | cons c a' ih =>
    intro v hno
    have hsplit : sep.dropLast ++ [sep.getLast hne] = sep := List.dropLast_append_getLast hne
    have hlen : sep.length ≤ (c :: (a' ++ sep.dropLast)).length := by
      have : sep.dropLast.length = sep.length - 1 := List.length_dropLast sep
      simp only [List.length_cons, List.length_append, this]
      have : 1 ≤ sep.length := List.length_pos.mpr hne
      omega
    have harr : (c :: a') ++ sep ++ v =
        (c :: (a' ++ sep.dropLast)) ++ ([sep.getLast hne] ++ v) := by
      conv_lhs => rw [← hsplit]
      simp [List.append_assoc]
    have hnotlead : leadsWith sep ((c :: a') ++ sep ++ v) = false := by
      rw [harr, leadsWith_append_of_le sep _ _ hlen]
      by_contra hcon
      rw [Bool.not_eq_false] at hcon
      have := occursIn_of_leadsWith sep _ hcon
      rw [show c :: (a' ++ sep.dropLast) = (c :: a') ++ sep.dropLast by simp] at this
      rw [this] at hno
      exact Bool.noConfusion hno
    have hno' : occursIn sep (a' ++ sep.dropLast) = false := by
      have hx : occursIn sep ((c :: a') ++ sep.dropLast) = false := hno
      rw [show (c :: a') ++ sep.dropLast = c :: (a' ++ sep.dropLast) by simp] at hx
      rw [occursIn] at hx
      exact (Bool.or_eq_false_iff.mp hx).2
    have : (c :: a') ++ sep ++ v = c :: (a' ++ sep ++ v) := by simp
    rw [this, firstSplit]
    rw [if_neg (by rw [show c :: (a' ++ sep ++ v) = (c :: a') ++ sep ++ v by simp, hnotlead]; exact Bool.noConfusion)]
    rw [ih v hno']
    rfl

/-- C8: a single-line, non-block scalar is quoted with `\"`-escaping
exactly when it contains one of `:[]\x7b\x7d,` or has a leading or
trailing space, and is otherwise emitted verbatim; in the verbatim case
re-splitting the line at the first occurrence of the separator yields
back the path and the original value (provided the separator does not
occur in or spill over the joined path, which contains no separator in
normal use). -/
theorem c8_scalar_formatting (sep : String) (path : List String) (val : String)
    (st : Style) (ie : Bool) (d : Int)
    (hnl : val.toList.contains '\n' = false)
    (hl : st ≠ Style.literal) (hf : st ≠ Style.folded)
    (hemit : ie = true ∨ trimmedEmpty val = false) :
    ((hasSpecial val = true ∨ startsSpace val = true ∨ endsSpace val = true) →
      walk ie sep (Node.scalar val st) path d =
        ([joinDot path ++ sep ++ "\"" ++ escapeQuotes val ++ "\""], false))
    ∧ ((hasSpecial val = false ∧ startsSpace val = false ∧ endsSpace val = false) →
      walk ie sep (Node.scalar val st) path d = ([joinDot path ++ sep ++ val], false)
      ∧ (sep.toList ≠ [] →
          occursIn sep.toList ((joinDot path).toList ++ sep.toList.dropLast) = false →
          firstSplit sep.toList ((joinDot path ++ sep ++ val).toList) =
            some ((joinDot path).toList, val.toList))) := by
  have hguard : ¬(ie = false ∧ isEmptyNode (Node.scalar val st) = true) := by
    rcases hemit with h | h
    · simp [h]
    · simp [isEmptyNode, h]
  have hml : ¬(val.toList.contains '\n' = true ∨ st = Style.literal ∨ st = Style.folded) := by
    rw [hnl]
    simp [hl, hf]
  constructor
  · intro hq
    rw [walk.eq_def, if_neg hguard]
    simp only [renderScalar]
    rw [if_neg hml, if_pos (by rcases hq with h | h | h <;> simp [h])]
  · intro hv
    obtain ⟨h1, h2, h3⟩ := hv
    have hrender : walk ie sep (Node.scalar val st) path d =
        ([joinDot path ++ sep ++ val], false) := by
      rw [walk.eq_def, if_neg hguard]
      simp only [renderScalar]
      rw [if_neg hml, if_neg (by simp [h1, h2, h3])]
    refine ⟨hrender, fun hsne hocc => ?_⟩
    have htl : (joinDot path ++ sep ++ val).toList =
        (joinDot path).toList ++ sep.toList ++ val.toList := by
      simp [String.toList, String.data_append]
    rw [htl, List.append_assoc, ← List.append_assoc]
    exact firstSplit_boundary sep.toList hsne (joinDot path).toList val.toList hocc

/-- Witness for C8: `hello` under path `app` with separator `": "`. -/
theorem c8_scalar_formatting_witness :
    walk false ": " (Node.scalar "hello" Style.plain) ["app"] (-1) = (["app: hello"], false)
    ∧ firstSplit (": ".toList) ("app: hello".toList) =
        some ("app".toList, "hello".toList) := by
  have h := (c8_scalar_formatting ": " ["app"] "hello" Style.plain false (-1)
    rfl (fun h => nomatch h) (fun h => nomatch h) (Or.inr rfl)).2 (by decide)
  exact ⟨h.1, h.2 (by decide) (by decide)⟩

/-- Dropping a trailing empty line commutes with consing onto a
nonempty list. -/
theorem stripTrailingEmpty_cons_cons (a b : String) (l : List String) :
    stripTrailingEmpty (a :: b :: l) = a :: stripTrailingEmpty (b :: l) := by
  unfold stripTrailingEmpty
  rw [List.getLast?_cons_cons]
  by_cases h : (b :: l).getLast? = some ""
  · rw [if_pos h, if_pos h, List.dropLast_cons₂]
  · rw [if_neg h, if_neg h]

/-- The block-scalar emission loop of the code (skip only a final empty
line) equals the spec's description (drop the trailing empty line, then
indent every line by two spaces). -/
theorem emitBlockLines_eq_strip (lines : List String) :
    emitBlockLines lines = (stripTrailingEmpty lines).map (fun l => "  " ++ l) := by
  induction lines with
  | nil => rfl
  | cons a rest ih =>
    cases rest with
    | nil =>
      by_cases h : a = ""
      · simp [emitBlockLines, stripTrailingEmpty, h]
      · simp [emitBlockLines, stripTrailingEmpty, h]
    | cons b rest2 =>
      rw [emitBlockLines, stripTrailingEmpty_cons_cons, List.map_cons, ih]

/-- C9: a scalar with an embedded newline, or recorded literal-block or
folded-block style, is emitted as a `|-` header line followed by each
line of the value indented by two spaces, with the trailing empty line
produced by a terminating newline suppressed. -/
theorem c9_multiline_scalar (sep : String) (path : List String) (val : String)
    (st : Style) (ie : Bool) (d : Int)
    (hml : val.toList.contains '\n' = true ∨ st = Style.literal ∨ st = Style.folded)
    (hemit : ie = true ∨ trimmedEmpty val = false) :
    walk ie sep (Node.scalar val st) path d =
      ((joinDot path ++ sep ++ "|-") ::
        (stripTrailingEmpty (splitLines val)).map (fun l => "  " ++ l), false) := by
  have hguard : ¬(ie = false ∧ isEmptyNode (Node.scalar val st) = true) := by
    rcases hemit with h | h
    · simp [h]
    · simp [isEmptyNode, h]
  rw [walk.eq_def, if_neg hguard]
  simp only [renderScalar]
  rw [if_pos hml, emitBlockLines_eq_strip]

/-- Witness for C9: the scalar value `"a\nb\n"` produces exactly the two
indented lines under the `|-` header, with no trailing blank line. -/
theorem c9_multiline_scalar_witness :
    walk false ": " (Node.scalar "a\nb\n" Style.plain) ["k"] (-1) =
      (["k: |-", "  a", "  b"], false) :=
  c9_multiline_scalar ": " ["k"] "a\nb\n" Style.plain false (-1) (Or.inl rfl) (Or.inr rfl)

/-- `walkC` is `walk` with each line tagged by its descent count: erasing
the tags recovers exactly the lines (and the panic flag) of `walk`. -/
theorem walkC_proj (ie : Bool) (sep : String) :
    ∀ (node : Node) (path : List String) (remain : Int) (k : Nat),
      ((walkC ie sep node path remain k).1.map Prod.snd = (walk ie sep node path remain).1)
      ∧ ((walkC ie sep node path remain k).2 = (walk ie sep node path remain).2) := by
  refine walkC.induct ie sep
    (fun node path remain k =>
      ((walkC ie sep node path remain k).1.map Prod.snd = (walk ie sep node path remain).1)
      ∧ ((walkC ie sep node path remain k).2 = (walk ie sep node path remain).2))
    (fun items path i remain k =>
      ((walkCItems ie sep items path i remain k).1.map Prod.snd = (walkItems ie sep items path i remain).1)
      ∧ ((walkCItems ie sep items path i remain k).2 = (walkItems ie sep items path i remain).2))
    (fun pairs path remain k =>
      ((walkCPairs ie sep pairs path remain k).1.map Prod.snd = (walkPairs ie sep pairs path remain).1)
      ∧ ((walkCPairs ie sep pairs path remain k).2 = (walkPairs ie sep pairs path remain).2))
    ?_ ?_ ?_ ?_ ?_ ?_ ?_ ?_ ?_ ?_ ?_ ?_ ?_
  · intro t path remain k h
    rw [walkC.eq_def, walk.eq_def, if_pos h, if_pos h]
    exact ⟨rfl, rfl⟩
  · intro path k pairs h
    rw [walkC.eq_def, walk.eq_def, if_neg h, if_neg h]
    simp
  · intro path remain k pairs hrem h ih
    rw [walkC.eq_def, walk.eq_def, if_neg h, if_neg h]
    simpa [hrem] using ih
  · intro path k items h
    rw [walkC.eq_def, walk.eq_def, if_neg h, if_neg h]
    simp
  · intro path remain k items hrem h ih
    rw [walkC.eq_def, walk.eq_def, if_neg h, if_neg h]
    simpa [hrem] using ih
  · intro path remain k val style h
    rw [walkC.eq_def, walk.eq_def, if_neg h, if_neg h]
    simp [List.map_map, Function.comp]
  · intro path remain k
    exact ⟨rfl, rfl⟩
  · intro path remain k kk v rest r hr ih
    have hr' : (walk ie sep v (path ++ [kk]) remain).2 = true := ih.2 ▸ hr
    rw [walkCPairs, walkPairs]
    rw [if_pos hr, if_pos hr']
    exact ih
  · intro path remain k kk v rest r hr ih ihrest
    have hr' : ¬(walk ie sep v (path ++ [kk]) remain).2 = true := fun hx => hr (ih.2 ▸ hx)
    rw [walkCPairs, walkPairs]
    simp only [if_neg hr, if_neg hr']
    refine ⟨?_, ihrest.2⟩
    simp [List.map_append, ih.1, ihrest.1]
  · intro path i remain k
    exact ⟨rfl, rfl⟩
  · intro path i remain k item rest hsuf
    rw [walkCItems, walkItems, hsuf]
    exact ⟨rfl, rfl⟩
  · intro path i remain k item rest p hsuf r hr ih
    have hr2 : (walkC ie sep item p remain k).2 = true := hr
    have hr' : (walk ie sep item p remain).2 = true := ih.2 ▸ hr2
    rw [walkCItems, walkItems, hsuf]
    simp only []
    rw [if_pos hr2, if_pos hr']
    exact ih
  · intro path i remain k item rest p hsuf r hr ih ihrest
    have hr2 : ¬(walkC ie sep item p remain k).2 = true := hr
    have hr' : ¬(walk ie sep item p remain).2 = true := fun hx => hr2 (ih.2 ▸ hx)
    rw [walkCItems, walkItems, hsuf]
    simp only []
    rw [if_neg hr2, if_neg hr']
    refine ⟨?_, ihrest.2⟩
    simp [List.map_append, ih.1, ihrest.1]

/-- With a non-negative budget `remain`, every line `walkC` emits carries
a descent count of at most `k + remain`: each descent pays one unit. -/
theorem walkC_bound (ie : Bool) (sep : String) :
    ∀ (node : Node) (path : List String) (remain : Int) (k : Nat),
      0 ≤ remain → ∀ pr ∈ (walkC ie sep node path remain k).1, (pr.1 : Int) ≤ k + remain := by
  refine walkC.induct ie sep
    (fun node path remain k =>
      0 ≤ remain → ∀ pr ∈ (walkC ie sep node path remain k).1, (pr.1 : Int) ≤ k + remain)
    (fun items path i remain k =>
      0 ≤ remain → ∀ pr ∈ (walkCItems ie sep items path i remain k).1, (pr.1 : Int) ≤ k + remain)
    (fun pairs path remain k =>
      0 ≤ remain → ∀ pr ∈ (walkCPairs ie sep pairs path remain k).1, (pr.1 : Int) ≤ k + remain)
    ?_ ?_ ?_ ?_ ?_ ?_ ?_ ?_ ?_ ?_ ?_ ?_ ?_
  · intro t path remain k h h0 pr hpr
    rw [walkC.eq_def, if_pos h] at hpr
    simp at hpr
  · intro path k pairs h h0 pr hpr
    rw [walkC.eq_def, if_neg h] at hpr
    simp at hpr
    subst hpr
    simp
  · intro path remain k pairs hrem h ih h0 pr hpr
    rw [walkC.eq_def, if_neg h] at hpr
    simp only [if_neg hrem] at hpr
    have hpos : remain > 0 := by omega
    have hnr : nextRem remain = remain - 1 := by simp [nextRem, hpos]
    rw [hnr] at hpr ih
    have := ih (by omega) pr hpr
    omega
  · intro path k items h h0 pr hpr
    rw [walkC.eq_def, if_neg h] at hpr
    simp at hpr
    subst hpr
    simp
  · intro path remain k items hrem h ih h0 pr hpr
    rw [walkC.eq_def, if_neg h] at hpr
    simp only [if_neg hrem] at hpr
    have hpos : remain > 0 := by omega
    have hnr : nextRem remain = remain - 1 := by simp [nextRem, hpos]
    rw [hnr] at hpr ih
    have := ih (by omega) pr hpr
    omega
  · intro path remain k val style h h0 pr hpr
    rw [walkC.eq_def, if_neg h] at hpr
    simp only [List.mem_map] at hpr
    obtain ⟨l, _, rfl⟩ := hpr
    simpa using h0
  · intro path remain k h0 pr hpr
    rw [walkCPairs] at hpr
    simp at hpr
  · intro path remain k kk v rest r hr ih h0 pr hpr
    rw [walkCPairs, if_pos hr] at hpr
    exact ih h0 pr hpr
  · intro path remain k kk v rest r hr ih ihrest h0 pr hpr
    rw [walkCPairs, if_neg hr] at hpr
    simp only [List.mem_append] at hpr
    rcases hpr with hpr | hpr
    · exact ih h0 pr hpr
    · exact ihrest h0 pr hpr
  · intro path i remain k h0 pr hpr
    rw [walkCItems] at hpr
    simp at hpr
  · intro path i remain k item rest hsuf h0 pr hpr
    rw [walkCItems, hsuf] at hpr
    simp at hpr
  · intro path i remain k item rest p hsuf r hr ih h0 pr hpr
    have hr2 : (walkC ie sep item p remain k).2 = true := hr
    rw [walkCItems, hsuf] at hpr
    simp only [] at hpr
    rw [if_pos hr2] at hpr
    exact ih h0 pr hpr
  · intro path i remain k item rest p hsuf r hr ih ihrest h0 pr hpr
    have hr2 : ¬(walkC ie sep item p remain k).2 = true := hr
    rw [walkCItems, hsuf] at hpr
    simp only [] at hpr
    rw [if_neg hr2] at hpr
    simp only [List.mem_append] at hpr
    rcases hpr with hpr | hpr
    · exact ih h0 pr hpr
    · exact ihrest h0 pr hpr

/-- C10: the lines of `walk` are exactly the tag-erased lines of the
instrumented `walkC`, whose tag counts the additional `.`-separated or
`[N]` segments beyond the starting prefix; with a non-negative budget
`d` every emitted line carries at most `d` additional segments; a
negative budget is passed through every descent unchanged (unlimited
stays unlimited) while a positive budget loses exactly one unit. -/
theorem c10_depth_budget (ie : Bool) (sep : String) (node : Node) (path : List String) (d : Int) :
    ((walkC ie sep node path d 0).1.map Prod.snd = (walk ie sep node path d).1)
    ∧ (0 ≤ d → ∀ pr ∈ (walkC ie sep node path d 0).1, (pr.1 : Int) ≤ d)
    ∧ (d < 0 → nextRem d = d)
    ∧ (0 < d → nextRem d = d - 1) := by
  refine ⟨(walkC_proj ie sep node path d 0).1, fun h0 pr hpr => ?_, fun hneg => ?_, fun hpos => ?_⟩
  · simpa using walkC_bound ie sep node path d 0 h0 pr hpr
  · simp [nextRem]
    omega
  · simp [nextRem, hpos]

/-- Witness for C10: a two-level mapping at budget 1 — the placeholder
line for the inner mapping is emitted at exactly one additional segment,
within the budget. -/
theorem c10_depth_budget_witness :
    (walkC false ": " (Node.mapping [("a", Node.mapping [("b", Node.scalar "x" Style.plain)])]) [] 1 0).1.map Prod.snd
      = (walk false ": " (Node.mapping [("a", Node.mapping [("b", Node.scalar "x" Style.plain)])]) [] 1).1
    ∧ ((1 : Nat) : Int) ≤ 1 := by
  have h := c10_depth_budget false ": "
    (Node.mapping [("a", Node.mapping [("b", Node.scalar "x" Style.plain)])]) [] 1
  exact ⟨h.1, h.2.1 (by decide) (1, "a: <object>") (by decide)⟩

end HelmWalk
